import Mathlib

/-!
Verification of the display/classification core of `gh-copilot-usage`.

The TypeScript source is shallowly embedded here:

* JS numbers are modelled as exact rationals (`ℚ`).  The arithmetic
  wrappers `ratAdd`, `ratSub`, `ratMul`, `ratDiv` below are definitionally
  reducible implementations of `+`, `-`, `*`, `/` on `ℚ` (the library
  operations are irreducible, which would block concrete evaluation of
  the embedded code); the lemmas `ratAdd_eq` … `ratDiv_eq` prove they
  agree with the field operations, so theorems are stated with ordinary
  arithmetic.
* JS strings are modelled as Lean `String`s (sequences of code points;
  the sources only manipulate BMP text, where JS UTF-16 code units and
  code points coincide).  ANSI style escape sequences produced by
  `styleText` / `dim` contribute zero display width and always wrap whole
  visible segments, so the embedding erases them and keeps visible text.
* `Bun.stringWidth` is modelled by `strWidth`, which counts terminal
  columns: box-drawing and block glyphs are narrow (width 1) while
  East-Asian wide glyphs and emoji count 2, escapes having been erased.
* JS `Date` values are modelled by the observations the code makes of
  them: `getTime()` (epoch milliseconds), `toLocaleString('en-US',
  {month:'long'})` and `getFullYear()`.
* JS `Map` values are modelled as association lists in insertion order
  (`Map` iteration order), with unique keys maintained by `mapSet`.
* JS `String.prototype.repeat` throws a `RangeError` on a negative count;
  the embedding uses `Nat` counts (`Int.toNat` / truncated subtraction at
  the few spots where the JS value could go negative), and every theorem
  below carries hypotheses confining it to the domain where no such clamp
  fires, i.e. where the JS code does not throw.
-/

/-- Reducible implementation of rational addition (JS `a + b`). -/
def ratAdd (a b : ℚ) : ℚ := Rat.divInt (a.num * b.den + b.num * a.den) (a.den * b.den)

/-- Reducible implementation of rational subtraction (JS `a - b`). -/
def ratSub (a b : ℚ) : ℚ := Rat.divInt (a.num * b.den - b.num * a.den) (a.den * b.den)

/-- Reducible implementation of rational multiplication (JS `a * b`). -/
def ratMul (a b : ℚ) : ℚ := Rat.divInt (a.num * b.num) (a.den * b.den)

/-- Reducible implementation of rational division (JS `a / b`; division by
zero is a don't-care case, every use below is guarded by a positivity
hypothesis). -/
def ratDiv (a b : ℚ) : ℚ := Rat.divInt (a.num * b.den) (a.den * b.num)

/-- JS `Math.round`: round half toward positive infinity. -/
def jsRound (q : ℚ) : ℤ := ⌊ratAdd q (Rat.divInt 1 2)⌋

/-- The three severity colours of the display. -/
inductive Color where
  | green
  | yellow
  | red
deriving DecidableEq, Repr

/-- `getOverallColor` (src/display.ts:16-26): pacing-relative classification
of the overall usage percentage against the elapsed fraction of the month. -/
def getOverallColor (percentage monthProgress : ℚ) : Color :=
  let usageRat := ratDiv percentage 100
  let redThreshold := ratDiv (ratAdd 1 monthProgress) 2
  if usageRat < monthProgress then .green
  else if usageRat < redThreshold then .yellow
  else .red

/-- `getModelColor` (src/display.ts:28-32): fixed 75/90 thresholds for a
per-model percentage. -/
def getModelColor (percentage : ℚ) : Color :=
  if percentage < 75 then .green
  else if percentage < 90 then .yellow
  else .red

/-- The percentage passed to `getModelColor` for a model row
(src/display.ts:184): `(modelCount / limit) * 100`. -/
def modelPctValue (modelCount limit : ℚ) : ℚ := ratMul (ratDiv modelCount limit) 100

/-- The severity used to colour a model row's bar (src/display.ts:191-196). -/
def rowSeverity (modelCount limit : ℚ) : Color := getModelColor (modelPctValue modelCount limit)

/-- Terminal column width of one glyph: the per-glyph accounting behind
`Bun.stringWidth` (wide East-Asian ranges and emoji occupy two columns,
everything else — including the box-drawing, block, ellipsis and bullet
glyphs used by the renderer — occupies one). -/
def charWidth (c : Char) : Nat :=
  if 0x1100 ≤ c.toNat ∧ c.toNat ≤ 0x115F then 2
  else if 0x2E80 ≤ c.toNat ∧ c.toNat ≤ 0xA4CF then 2
  else if 0xAC00 ≤ c.toNat ∧ c.toNat ≤ 0xD7A3 then 2
  else if 0xF900 ≤ c.toNat ∧ c.toNat ≤ 0xFAFF then 2
  else if 0xFF00 ≤ c.toNat ∧ c.toNat ≤ 0xFF60 then 2
  else if 0x1F300 ≤ c.toNat ∧ c.toNat ≤ 0x1FAFF then 2
  else 1

/-- `Bun.stringWidth` on escape-erased text: rendered terminal columns. -/
def strWidth (s : String) : Nat := (s.data.map charWidth).sum

/-- JS `c.repeat(n)` for a single glyph (count already known non-negative). -/
def repeatChar (c : Char) (n : Nat) : String := String.mk (List.replicate n c)

/-- JS `String.prototype.padStart(n)` (pads with spaces, counts code units). -/
def padStartM (s : String) (n : Nat) : String := repeatChar ' ' (n - s.length) ++ s

/-- JS `String.prototype.padEnd(n)` (pads with spaces, counts code units). -/
def padEndM (s : String) (n : Nat) : String := s ++ repeatChar ' ' (n - s.length)

/-- JS `String.prototype.substring(0, n)` (counts code units; BMP text). -/
def takeM (s : String) (n : Nat) : String := String.mk (s.data.take n)

/-- Code-point based drop (helper for the argument-parser model). -/
def strDrop (s : String) (n : Nat) : String := String.mk (s.data.drop n)

/-- Code-point based `startsWith` (helper for the argument-parser model). -/
def strStarts (s pre : String) : Bool := pre.data.isPrefixOf s.data

/-- JS `String.prototype.toLowerCase` (ASCII suffices for the sources). -/
def strToLower (s : String) : String := String.mk (s.data.map Char.toLower)

/-- JS number-to-string for the 1-decimal `toFixed(1)` calls of the
renderer, on exact rationals: round half up at the first decimal.  (JS
`toFixed` rounds the underlying binary double; on the exactly-representable
values exercised here the two agree.) -/
def toFixed1 (q : ℚ) : String :=
  let n := jsRound (ratMul q 10)
  toString (n / 10) ++ "." ++ toString (n % 10)

/-- `formatPercentage` (src/display.ts:34-37): values at or above 1000
are compressed to a `k%` form. -/
def formatPercentage (pct : ℚ) : String :=
  if 1000 ≤ pct then toFixed1 (ratDiv pct 1000) ++ "k%"
  else toFixed1 pct ++ "%"

/-- JS number-to-string (template-literal / `toString()` conversion) for the
values the renderer prints: integers print without a decimal point, values
with up to two decimals (the form `fetchUsage` produces) print their short
decimal expansion.  Other rationals (never produced by the pipeline) fall
back to the two-decimal form. -/
def numToString (q : ℚ) : String :=
  if q.den = 1 then toString q.num
  else if (ratMul q 10).den = 1 then
    toString (q.num / (q.den : ℤ)) ++ "." ++ toString ((ratMul q 10).num % 10)
  else
    let f := (ratMul q 100).num % 100
    toString (q.num / (q.den : ℤ)) ++ "." ++
      (if f < 10 then "0" ++ toString f else toString f)

/-- `toTitleCase` (src/display.ts:8-10). -/
def toTitleCase (str : String) : String :=
  match str.data with
  | [] => ""
  | c :: cs => String.mk (c.toUpper :: cs)

/-- `drawBar` (src/display.ts:39-49), style escapes erased: `filled` block
glyphs then `empty` shade glyphs. -/
def drawBar (used total : ℚ) (width : Nat) : String :=
  let maxxed := min used total
  let filled := (⌊ratDiv (ratMul maxxed width) total⌋).toNat
  let empty := width - filled
  repeatChar '█' filled ++ repeatChar '░' empty

/-- `drawMonthProgressBar` (src/display.ts:51-62): a dimmed dotted bar with
one cursor cell. -/
def drawMonthProgressBar (currentDay totalDays width : Nat) : String :=
  let filled := min (currentDay * width / totalDays) (width - 1)
  let empty := width - filled - 1
  repeatChar '⋅' filled ++ "|" ++ repeatChar '⋅' empty

/-- `drawBoxTop` (src/display.ts:64-66). -/
def drawBoxTop (width : Nat) : String := "╭─" ++ repeatChar '─' width ++ "─╮"

/-- `drawBoxSeparator` (src/display.ts:68-70). -/
def drawBoxSeparator (width : Nat) : String := "├─" ++ repeatChar '─' width ++ "─┤"

/-- `drawBoxBottom` (src/display.ts:72-74). -/
def drawBoxBottom (width : Nat) : String := "╰─" ++ repeatChar '─' width ++ "─╯"

/-- `printBoxLine` (src/display.ts:76-83): centred content line. -/
def printBoxLine (text : String) (width : Nat) : String :=
  let textW := strWidth text
  let padding := (width - textW) / 2
  let rightPad := width - textW - padding
  "│ " ++ repeatChar ' ' padding ++ text ++ repeatChar ' ' rightPad ++ " │"

/-- `printBoxLeft` (src/display.ts:85-89): left-aligned content line (the
source clamps the right padding at zero with `Math.max`). -/
def printBoxLeft (text : String) (width : Nat) : String :=
  "│ " ++ text ++ repeatChar ' ' (width - strWidth text) ++ " │"

/-- `printBoxLeftRight` (src/display.ts:91-100): left and right aligned
texts with a gap of at least one cell. -/
def printBoxLeftRight (leftText rightText : String) (width : Nat) : String :=
  let gap := max 1 (width - strWidth leftText - strWidth rightText)
  "│ " ++ leftText ++ repeatChar ' ' gap ++ rightText ++ " │"

/-- src/display.ts:102. -/
def SEVEN_DAYS_MS : ℤ := 7 * 24 * 60 * 60 * 1000

/-- `formatTimeUntilReset` (src/display.ts:104-121), on `getTime()` epoch
milliseconds.  (`Int` division here is floor division, which agrees with
`Math.floor` of a real quotient on the positive quantities involved.) -/
def formatTimeUntilReset (nowMs resetMs : ℤ) : Option String :=
  let diffMs := resetMs - nowMs
  if diffMs ≤ 0 ∨ SEVEN_DAYS_MS ≤ diffMs then none
  else
    let totalMinutes := diffMs / (60 * 1000)
    let totalHours := diffMs / (60 * 60 * 1000)
    let days := diffMs / (24 * 60 * 60 * 1000)
    if 24 ≤ totalHours then
      some ("in " ++ toString days ++ (if days = 1 then " day" else " days"))
    else if 12 ≤ totalHours then some ("in " ++ toString totalHours ++ "h")
    else
      let remainingMinutes := totalMinutes % 60
      if totalHours = 0 then some ("in " ++ toString remainingMinutes ++ "min")
      else some ("in " ++ toString totalHours ++ "h " ++ toString remainingMinutes ++ "min")

/-- The observations the renderer makes of a JS `Date`. -/
structure DateM where
  time : ℤ
  monthLong : String
  fullYear : ℤ
deriving Repr, DecidableEq

/-- `UsageData` as consumed by `renderDisplay` (src/display.ts:143-153):
the renderer destructures a `now` field from its input in addition to the
fields declared on the `UsageData` type of src/usage.ts, so the modelled
input carries it.  `modelCounts` is the `Map` in insertion order. -/
structure UsageData where
  username : String
  year : ℤ
  month : String
  monthName : String
  currentDay : Nat
  daysInMonth : Nat
  nextResetDate : DateM
  totalUsage : ℚ
  modelCounts : List (String × ℚ)
  now : DateM
deriving Repr

/-- src/display.ts:4. -/
def MODEL_NAME_WIDTH : Nat := 22

/-- src/display.ts:5. -/
def MODEL_USAGE_COUNT_WIDTH : Nat := 5

/-- src/display.ts:6. -/
def MODEL_USAGE_PCT_WIDTH : Nat := 7

/-- Model-name truncation (src/display.ts:186-189): names longer than 22
code units are cut to 21 code units plus one ellipsis glyph.  Note the
source tests `model.length`, i.e. code units, not display columns. -/
def modelDisplayOf (model : String) : String :=
  if MODEL_NAME_WIDTH < model.length then takeM model (MODEL_NAME_WIDTH - 1) ++ "…"
  else model

/-- One row of the per-model table (src/display.ts:184-197), style erased:
padded name, right-aligned rounded count, bar, right-aligned percentage. -/
def modelLineText (limit : ℚ) (smallBarWidth : Nat) (entry : String × ℚ) : String :=
  let modelPct := formatPercentage (modelPctValue entry.2 limit)
  let smallBar := drawBar entry.2 limit smallBarWidth
  padEndM (modelDisplayOf entry.1) MODEL_NAME_WIDTH ++
    padStartM (toString (jsRound entry.2)) MODEL_USAGE_COUNT_WIDTH ++ " " ++
    smallBar ++ " " ++ padStartM modelPct MODEL_USAGE_PCT_WIDTH

/-- One insertion step of a stable descending-by-count sort: the new
element goes after every element whose count is at least as large. -/
def insertByCountDesc (x : String × ℚ) : List (String × ℚ) → List (String × ℚ)
  | [] => [x]
  | y :: ys => if y.2 < x.2 then x :: y :: ys else y :: insertByCountDesc x ys

/-- `Array.prototype.sort` with comparator `(a, b) => b[1] - a[1]`
(src/display.ts:177-179): JS sort is stable, and a stable sort under a
total preorder is unique, so this stable insertion sort models it. -/
def sortByCountDesc (l : List (String × ℚ)) : List (String × ℚ) :=
  l.foldl (fun acc x => insertByCountDesc x acc) []

/-- `hasUsage` (src/display.ts:171): some model has a strictly positive
count. -/
def hasUsage (modelCounts : List (String × ℚ)) : Bool :=
  modelCounts.any (fun p => 0 < p.2)

/-- The entries that produce table rows (src/display.ts:181-182): sorted
descending, entries with count exactly 0 skipped by `continue`. -/
def rowEntries (modelCounts : List (String × ℚ)) : List (String × ℚ) :=
  (sortByCountDesc modelCounts).filter (fun p => p.2 ≠ 0)

/-- The `modelLines` block (src/display.ts:171-201): the placeholder line
when nothing was used, otherwise one row per surviving entry. -/
def modelBlockLines (modelCounts : List (String × ℚ)) (limit : ℚ)
    (innerWidth smallBarWidth : Nat) : List String :=
  if hasUsage modelCounts = false then
    [printBoxLeft "No premium requests used yet." innerWidth]
  else
    (rowEntries modelCounts).map
      (fun p => printBoxLeft (modelLineText limit smallBarWidth p) innerWidth)

/-- `(totalUsage / limit) * 100` (src/display.ts:155). -/
def percentageOf (totalUsage limit : ℚ) : ℚ := ratMul (ratDiv totalUsage limit) 100

/-- Centred title line content (src/display.ts:206). -/
def titleText (plan : String) : String :=
  "GitHub Copilot " ++ toTitleCase plan ++ " - Premium Requests Usage"

/-- Centred subtitle line content (src/display.ts:207). -/
def subtitleText (data : UsageData) : String :=
  data.monthName ++ " " ++ toString data.year ++ " • " ++ data.username

/-- Visible text of the `Overall:` line (src/display.ts:210-212). -/
def overallText (data : UsageData) (limit : ℚ) : String :=
  "Overall:  " ++ numToString data.totalUsage ++ "/" ++ numToString limit ++ " (" ++
    toFixed1 (percentageOf data.totalUsage limit) ++ "%)"

/-- Visible text of the `Resets:` label (src/display.ts:163-166). -/
def resetLabelText (data : UsageData) : String :=
  "Resets:   " ++ data.nextResetDate.monthLong ++ " 1, " ++
    toString data.nextResetDate.fullYear ++ " at 00:00 UTC"

/-- The countdown suffix slot (src/display.ts:161-162): only computed when
the terminal is at least 60 columns wide. -/
def timeUntilResetOpt (data : UsageData) (width : Nat) : Option String :=
  if 60 ≤ width then formatTimeUntilReset data.now.time data.nextResetDate.time else none

/-- The reset line (src/display.ts:218-220). -/
def resetLine (data : UsageData) (width innerWidth : Nat) : String :=
  match timeUntilResetOpt data width with
  | some t => printBoxLeftRight (resetLabelText data) t innerWidth
  | none => printBoxLeft (resetLabelText data) innerWidth

/-- `renderDisplay` (src/display.ts:127-229) as its list of output lines:
the source joins this list with newlines (the trailing empty string is the
last element of the joined array, producing the final newline). -/
def renderDisplayLines (data : UsageData) (plan : String) (limit : ℚ)
    (width : Nat) : List String :=
  let boxInnerWidth := width - 4
  let largeBarWidth := boxInnerWidth - 10
  let smallBarWidth := boxInnerWidth - MODEL_NAME_WIDTH - MODEL_USAGE_COUNT_WIDTH -
    MODEL_USAGE_PCT_WIDTH - 2
  [drawBoxTop boxInnerWidth,
   printBoxLine "" boxInnerWidth,
   printBoxLine (titleText plan) boxInnerWidth,
   printBoxLine (subtitleText data) boxInnerWidth,
   printBoxLine "" boxInnerWidth,
   drawBoxSeparator boxInnerWidth,
   printBoxLeft (overallText data limit) boxInnerWidth,
   printBoxLeft ("Usage:    " ++ drawBar data.totalUsage limit largeBarWidth) boxInnerWidth,
   printBoxLeft ("Month:    " ++
     drawMonthProgressBar data.currentDay data.daysInMonth largeBarWidth) boxInnerWidth,
   printBoxLine "" boxInnerWidth,
   resetLine data width boxInnerWidth,
   drawBoxSeparator boxInnerWidth,
   printBoxLeft "Per-model usage:" boxInnerWidth,
   printBoxLine "" boxInnerWidth] ++
  modelBlockLines data.modelCounts limit boxInnerWidth smallBarWidth ++
  [printBoxLine "" boxInnerWidth, drawBoxBottom boxInnerWidth] ++
  [""]

/-- The joined multi-line output of `renderDisplay`. -/
def renderDisplay (data : UsageData) (plan : String) (limit : ℚ) (width : Nat) : String :=
  String.intercalate "\n" (renderDisplayLines data plan limit width)

/-- A usage item of the billing payload (src/usage.ts:28-31). -/
structure UsageItem where
  grossQuantity : ℚ
  model : Option String
deriving Repr, DecidableEq

/-- The aggregation key of an item (src/usage.ts:69): a missing model name
collapses to the sentinel `"Unknown"`. -/
def keyOf (item : UsageItem) : String := item.model.getD "Unknown"

/-- JS `Map.prototype.get` on the association-list model. -/
def mapGet (m : List (String × ℚ)) (k : String) : Option ℚ :=
  match m with
  | [] => none
  | (k', v) :: rest => if k' = k then some v else mapGet rest k

/-- JS `Map.prototype.set` on the association-list model: update in place,
else append (preserving insertion order). -/
def mapSet (m : List (String × ℚ)) (k : String) (v : ℚ) : List (String × ℚ) :=
  match m with
  | [] => [(k, v)]
  | (k', v') :: rest => if k' = k then (k, v) :: rest else (k', v') :: mapSet rest k v

/-- The `modelCounts` aggregation loop of `fetchUsage` (src/usage.ts:67-71). -/
def modelCountsOf (items : List UsageItem) : List (String × ℚ) :=
  items.foldl
    (fun m item =>
      mapSet m (keyOf item) (ratAdd ((mapGet m (keyOf item)).getD 0) item.grossQuantity))
    []

/-- The `totalUsage` computation of `fetchUsage` (src/usage.ts:62-65):
the item sum, rounded to two decimals via `Math.round(x * 100) / 100`. -/
def totalUsageOf (items : List UsageItem) : ℚ :=
  ratDiv ((jsRound (ratMul (items.foldl (fun sum item => ratAdd sum item.grossQuantity) 0) 100) : ℚ)) 100

/-- The CLI error taxonomy of src/cli.ts. -/
inductive CliError where
  | invalidPlan (plan : String)
  | invalidLimit (value : String)
  | unknownFlag (reason : String)
deriving Repr, DecidableEq

/-- The CLI result of `parseCliArgs` (src/cli.ts:225-228). -/
inductive CliResult where
  | helpAction (text : String)
  | versionAction (text : String)
  | run (plan : Option String) (limit : Option ℤ)
deriving Repr, DecidableEq

/-- Version string from package.json; the package manifest is not among
the sources and the parser's control flow does not depend on its value. -/
def VERSION : String := "x.y.z"

/-- The plan table `PLANS` of src/config.ts:3-9; `PLANS[key]` truthiness
is membership, since every stored limit is non-zero. -/
def PLANS (k : String) : Option Nat :=
  if k = "free" then some 50
  else if k = "pro" then some 300
  else if k = "pro+" then some 1500
  else if k = "business" then some 300
  else if k = "enterprise" then some 1000
  else none

/-- The help text of src/cli.ts:262-293 (with the plan list interpolated,
as in the source). -/
def helpText : String :=
  "\nGitHub Copilot Premium Requests Usage Tracker v" ++ VERSION ++
  "\n\nUsage:\n  gh copilot-usage [options]\n\nOptions:\n" ++
  "  --plan <name>       Set your Copilot plan (free, pro, pro+, business, enterprise)\n" ++
  "  --limit <number>    Set custom monthly premium request limits\n" ++
  "  --help, -h          Show this help message\n" ++
  "  --version, -v       Show version information\n\nConfiguration:\n" ++
  "  The plan can be configured in multiple ways (in order of priority):\n" ++
  "    1. Command line flag: --plan pro\n" ++
  "    2. Environment variable: GH_COPILOT_PLAN=pro\n" ++
  "    3. gh config: gh config set copilot-usage.plan pro\n" ++
  "    4. Default: pro\n\n" ++
  "  The limit can be configured in multiple ways (in order of priority):\n" ++
  "    1. Command line flag: --limit 300\n" ++
  "    2. Environment variable: GH_COPILOT_LIMIT=300\n" ++
  "    3. gh config: gh config set copilot-usage.limit 300\n" ++
  "    4. Plan's default limit (based on selected plan)\n\n" ++
  "Examples:\n  gh copilot-usage\n  gh copilot-usage --plan pro+\n" ++
  "  gh copilot-usage --limit 500\n  GH_COPILOT_LIMIT=500 gh copilot-usage\n"

/-- The values extracted by `node:util` `parseArgs` for the option set of
src/cli.ts:239-249 (`plan`/`p` and `limit`/`l` take string values,
`help`/`h` and `version`/`v` are booleans; last occurrence wins). -/
structure ParsedValues where
  plan : Option String
  limit : Option String
  help : Bool
  version : Bool
deriving Repr, DecidableEq

/-- Initial parse state: no flag seen. -/
def emptyValues : ParsedValues := ⟨none, none, false, false⟩

/-- `natOfDigits` folds decimal digits (helper for `parseIntM`). -/
def natOfDigits (cs : List Char) : Nat := cs.foldl (fun n c => 10 * n + (c.toNat - 48)) 0

/-- JS `parseInt(s, 10)`: skip leading spaces, optional sign, then the
longest digit run; `none` models `NaN` (no digits), trailing garbage is
ignored. -/
def parseIntM (s : String) : Option ℤ :=
  let cs := s.data.dropWhile (fun c => c = ' ')
  match cs with
  | '-' :: rest =>
    let ds := rest.takeWhile Char.isDigit
    if ds.isEmpty then none else some (-(natOfDigits ds : ℤ))
  | '+' :: rest =>
    let ds := rest.takeWhile Char.isDigit
    if ds.isEmpty then none else some ((natOfDigits ds : ℤ))
  | _ =>
    let ds := cs.takeWhile Char.isDigit
    if ds.isEmpty then none else some ((natOfDigits ds : ℤ))

/-- Processing of one grouped short-option token (after its dash) by
`parseArgs`: booleans accumulate; a string option either consumes the rest
of the token as its value or (returned as `some c`) waits for the next
token. -/
def runShorts (cs : List Char) (vals : ParsedValues) :
    Except String (ParsedValues × Option Char) :=
  match cs with
  | [] => .ok (vals, none)
  | c :: rest =>
    if c = 'h' then runShorts rest { vals with help := true }
    else if c = 'v' then runShorts rest { vals with version := true }
    else if c = 'p' then
      if rest.isEmpty then .ok (vals, some 'p')
      else .ok ({ vals with plan := some (String.mk rest) }, none)
    else if c = 'l' then
      if rest.isEmpty then .ok (vals, some 'l')
      else .ok ({ vals with limit := some (String.mk rest) }, none)
    else .error ("Unknown option '-" ++ String.mk [c] ++ "'")

/-- Store the value of a pending short string option. -/
def setPending (c : Char) (v : String) (vals : ParsedValues) : ParsedValues :=
  if c = 'p' then { vals with plan := some v } else { vals with limit := some v }

/-- The token loop of `node:util` `parseArgs` with `strict: true` and
`allowPositionals: true` for the option set of src/cli.ts:239-249.
Tokens that do not start with a dash are positionals; `--` ends option
processing; a token starting with a dash is never consumed as the value of
a preceding string option (hence `--limit -10` is a parse error, as the
repository's CLI test records). -/
def parseTokens : List String → ParsedValues → Except String ParsedValues
  | [], vals => .ok vals
  | arg :: rest, vals =>
    if arg = "--" then .ok vals
    else if strStarts arg "--" then
      let body := strDrop arg 2
      let name := String.mk (body.data.takeWhile (fun c => c ≠ '='))
      let hasEq := name.length < body.length
      let value := strDrop body (name.length + 1)
      if name = "help" then
        if hasEq then .error "Option '--help' does not take an argument"
        else parseTokens rest { vals with help := true }
      else if name = "version" then
        if hasEq then .error "Option '--version' does not take an argument"
        else parseTokens rest { vals with version := true }
      else if name = "plan" then
        if hasEq then parseTokens rest { vals with plan := some value }
        else
          match rest with
          | v :: rest' =>
            if strStarts v "-" then .error "Option '--plan <value>' argument missing"
            else parseTokens rest' { vals with plan := some v }
          | [] => .error "Option '--plan <value>' argument missing"
      else if name = "limit" then
        if hasEq then parseTokens rest { vals with limit := some value }
        else
          match rest with
          | v :: rest' =>
            if strStarts v "-" then .error "Option '--limit <value>' argument missing"
            else parseTokens rest' { vals with limit := some v }
          | [] => .error "Option '--limit <value>' argument missing"
      else .error ("Unknown option '--" ++ name ++ "'")
    else if strStarts arg "-" ∧ arg ≠ "-" then
      match runShorts (strDrop arg 1).data vals with
      | .error e => .error e
      | .ok (vals', none) => parseTokens rest vals'
      | .ok (vals', some c) =>
        match rest with
        | v :: rest' =>
          if strStarts v "-" then .error "Option argument missing"
          else parseTokens rest' (setPending c v vals')
        | [] => .error "Option argument missing"
    else parseTokens rest vals

/-- The `parseArgs` call of src/cli.ts:238-257 (`Bun.argv` is passed whole;
its leading runtime and script entries are positionals). -/
def parseArgsModel (argv : List String) : Except String ParsedValues :=
  parseTokens argv emptyValues

/-- The validation tail of `parseCliArgs` (src/cli.ts:300-321): plan is
lower-cased and checked against `PLANS`, then the limit must parse to a
positive integer. -/
def validateRun (vals : ParsedValues) : Except CliError CliResult :=
  let planStep : Except CliError (Option String) :=
    match vals.plan with
    | none => .ok none
    | some rawPlan =>
      let planKey := strToLower rawPlan
      if (PLANS planKey).isSome then .ok (some planKey) else .error (.invalidPlan rawPlan)
  match planStep with
  | .error e => .error e
  | .ok plan =>
    match vals.limit with
    | none => .ok (.run plan none)
    | some rawLimit =>
      match parseIntM rawLimit with
      | none => .error (.invalidLimit rawLimit)
      | some v => if v ≤ 0 then .error (.invalidLimit rawLimit) else .ok (.run plan (some v))

/-- `parseCliArgs` (src/cli.ts:230-322): any `parseArgs` throw becomes
`UnknownFlagError`; then help, then version, then plan/limit validation. -/
def parseCliArgs (argv : List String) : Except CliError CliResult :=
  match parseArgsModel argv with
  | .error reason => .error (.unknownFlag reason)
  | .ok vals =>
    if vals.help then .ok (.helpAction helpText)
    else if vals.version then .ok (.versionAction VERSION)
    else validateRun vals

/-- Concrete snapshot used by witnesses and counterexamples below (the
June 2025 fixture of the repository's display tests; the reset instant is
more than seven days past `now`). -/
def sampleData : UsageData :=
  { username := "octocat", year := 2025, month := "06", monthName := "June",
    currentDay := 15, daysInMonth := 30,
    nextResetDate := { time := 1751328000000, monthLong := "July", fullYear := 2025 },
    totalUsage := 150, modelCounts := [("gpt-4o", 150)],
    now := { time := 1750000000000, monthLong := "June", fullYear := 2025 } }

/-- Variant of `sampleData` with an oversized model count, whose rounded
count string no longer fits the 5-cell count column. -/
def overflowData : UsageData :=
  { sampleData with totalUsage := 100000, modelCounts := [("gpt-4o", 100000)] }

/-!  Theorems.  -/

theorem ratAdd_eq (a b : ℚ) : ratAdd a b = a + b := by
  have ha : (a.den : ℤ) ≠ 0 := Int.natCast_ne_zero.mpr a.den_nz
  have hb : (b.den : ℤ) ≠ 0 := Int.natCast_ne_zero.mpr b.den_nz
  rw [ratAdd, ← Rat.divInt_add_divInt _ _ ha hb, Rat.num_divInt_den, Rat.num_divInt_den]

theorem ratSub_eq (a b : ℚ) : ratSub a b = a - b := by
  have h : ratSub a b = ratAdd a (-b) := by
    rw [ratSub, ratAdd, Rat.neg_den, Rat.neg_num]
    congr 1
    ring
  rw [h, ratAdd_eq, ← sub_eq_add_neg]

theorem ratMul_eq (a b : ℚ) : ratMul a b = a * b := by
  have ha : (a.den : ℤ) ≠ 0 := Int.natCast_ne_zero.mpr a.den_nz
  have hb : (b.den : ℤ) ≠ 0 := Int.natCast_ne_zero.mpr b.den_nz
  rw [ratMul, ← Rat.divInt_mul_divInt _ _ ha hb, Rat.num_divInt_den, Rat.num_divInt_den]

theorem ratDiv_eq (a b : ℚ) : ratDiv a b = a / b := by
  rcases eq_or_ne b 0 with hb | hb
  · subst hb
    have h0 : (0 : ℚ).num = 0 := rfl
    rw [ratDiv, div_zero, h0, mul_zero, Rat.divInt_zero]
  · have hbn : b.num ≠ 0 := Rat.num_ne_zero.mpr hb
    have ha : (a.den : ℤ) ≠ 0 := Int.natCast_ne_zero.mpr a.den_nz
    have hrhs : a / b = Rat.divInt (a.num * b.den) (a.den * b.num) := by
      conv_lhs => rw [div_eq_mul_inv, ← Rat.num_divInt_den a, ← Rat.num_divInt_den b]
      rw [Rat.inv_divInt', Rat.divInt_mul_divInt _ _ ha hbn]
    rw [ratDiv, hrhs]

theorem jsRound_eq (q : ℚ) : jsRound q = ⌊q + 1 / 2⌋ := by
  rw [jsRound, ratAdd_eq, Rat.divInt_eq_div]
  norm_num

/-- Claim C1: for `monthProgress ∈ (0,1]`, with `usageRatio = pct/100` and
`redThreshold = (1+monthProgress)/2`, the overall classifier is Green exactly
below `monthProgress`, Yellow exactly on `[monthProgress, redThreshold)`, Red
exactly at or above `redThreshold`; when `monthProgress = 1` the Yellow band
is empty: anything below 100% usage is Green, anything at or above is Red. -/
theorem overall_color_classification (pct mp : ℚ) (hmp0 : 0 < mp) (hmp1 : mp ≤ 1) :
    (getOverallColor pct mp = .green ↔ pct / 100 < mp) ∧
    (getOverallColor pct mp = .yellow ↔ mp ≤ pct / 100 ∧ pct / 100 < (1 + mp) / 2) ∧
    (getOverallColor pct mp = .red ↔ (1 + mp) / 2 ≤ pct / 100) ∧
    (mp = 1 → getOverallColor pct mp ≠ .yellow ∧
      (pct / 100 < 1 → getOverallColor pct mp = .green) ∧
      (1 ≤ pct / 100 → getOverallColor pct mp = .red)) := by
  have hdiv : ratDiv pct 100 = pct / 100 := ratDiv_eq pct 100
  have hthr : ratDiv (ratAdd 1 mp) 2 = (1 + mp) / 2 := by rw [ratAdd_eq, ratDiv_eq]
  have hle : mp ≤ (1 + mp) / 2 := by linarith
  simp only [getOverallColor, hdiv, hthr]
  split_ifs with h1 h2
  · refine ⟨by simp [h1], ⟨fun h => by simp at h, fun ⟨h, _⟩ => absurd h1 (not_lt.mpr h)⟩,
      ⟨fun h => by simp at h, fun h => absurd (lt_of_lt_of_le h1 hle) (not_lt.mpr h)⟩, ?_⟩
    intro hmp
    subst hmp
    exact ⟨by simp, fun _ => rfl, fun h => absurd h1 (not_lt.mpr h)⟩
  · push_neg at h1
    refine ⟨⟨fun h => by simp at h, fun h => absurd h (not_lt.mpr h1)⟩, by simp [h1, h2],
      ⟨fun h => by simp at h, fun h => absurd h2 (not_lt.mpr h)⟩, ?_⟩
    intro hmp
    subst hmp
    have : (1 : ℚ) < (1 + 1) / 2 := lt_of_le_of_lt h1 h2
    norm_num at this
  · push_neg at h1 h2
    refine ⟨⟨fun h => by simp at h, fun h => absurd h (not_lt.mpr h1)⟩,
      ⟨fun h => by simp at h, fun ⟨_, h⟩ => absurd h (not_lt.mpr h2)⟩, by simp [h2], ?_⟩
    intro hmp
    subst hmp
    refine ⟨by simp, fun h => ?_, fun _ => rfl⟩
    have : (1 + 1 : ℚ) / 2 ≤ pct / 100 := h2
    norm_num at this
    exact absurd (lt_of_le_of_lt this h) (lt_irrefl 1)

theorem overall_color_classification_witness :
    (0 : ℚ) < Rat.divInt 1 2 ∧ Rat.divInt 1 2 ≤ (1 : ℚ) ∧
    ((getOverallColor 50 (Rat.divInt 1 2) = .green ↔ (50 : ℚ) / 100 < Rat.divInt 1 2) ∧
     (getOverallColor 50 (Rat.divInt 1 2) = .yellow ↔
        Rat.divInt 1 2 ≤ (50 : ℚ) / 100 ∧
          (50 : ℚ) / 100 < (1 + Rat.divInt 1 2) / 2) ∧
     (getOverallColor 50 (Rat.divInt 1 2) = .red ↔
        (1 + Rat.divInt 1 2) / 2 ≤ (50 : ℚ) / 100) ∧
     (Rat.divInt 1 2 = 1 → getOverallColor 50 (Rat.divInt 1 2) ≠ .yellow ∧
       ((50 : ℚ) / 100 < 1 → getOverallColor 50 (Rat.divInt 1 2) = .green) ∧
       (1 ≤ (50 : ℚ) / 100 → getOverallColor 50 (Rat.divInt 1 2) = .red))) :=
  ⟨by decide, by decide,
    overall_color_classification 50 (Rat.divInt 1 2) (by decide) (by decide)⟩

/-- Claim C4: for every percentage `pct` (uncapped: `pct` ranges over all of
`ℚ`, in particular values above 100), the category classifier is Green
exactly below 75, Yellow exactly on `[75, 90)` and Red exactly at or above
90, and the per-row percentage fed to it is `modelCount / limit * 100`. -/
theorem model_color_classification :
    (∀ pct : ℚ, (getModelColor pct = .green ↔ pct < 75) ∧
      (getModelColor pct = .yellow ↔ 75 ≤ pct ∧ pct < 90) ∧
      (getModelColor pct = .red ↔ 90 ≤ pct)) ∧
    (∀ modelCount limit : ℚ, modelPctValue modelCount limit = modelCount / limit * 100 ∧
      rowSeverity modelCount limit = getModelColor (modelCount / limit * 100)) := by
  constructor
  · intro pct
    unfold getModelColor
    split_ifs with h1 h2
    · exact ⟨by simp [h1], ⟨fun h => by simp at h, fun ⟨h, _⟩ => absurd h1 (not_lt.mpr h)⟩,
        ⟨fun h => by simp at h, fun h => absurd h1 (not_lt.mpr (by linarith))⟩⟩
    · push_neg at h1
      exact ⟨⟨fun h => by simp at h, fun h => absurd h (not_lt.mpr h1)⟩, by simp [h1, h2],
        ⟨fun h => by simp at h, fun h => absurd h2 (not_lt.mpr h)⟩⟩
    · push_neg at h1 h2
      exact ⟨⟨fun h => by simp at h, fun h => absurd h (not_lt.mpr h1)⟩,
        ⟨fun h => by simp at h, fun ⟨_, h⟩ => absurd h (not_lt.mpr h2)⟩, by simp [h2]⟩
  · intro c l
    have hpct : modelPctValue c l = c / l * 100 := by
      rw [modelPctValue, ratDiv_eq, ratMul_eq]
    exact ⟨hpct, by rw [rowSeverity, hpct]⟩

theorem strWidth_append (a b : String) : strWidth (a ++ b) = strWidth a + strWidth b := by
  simp [strWidth, String.data_append]

theorem strWidth_mk (cs : List Char) : strWidth (String.mk cs) = (cs.map charWidth).sum := rfl

theorem strWidth_repeatChar (c : Char) (n : Nat) :
    strWidth (repeatChar c n) = n * charWidth c := by
  simp [repeatChar, strWidth, List.map_replicate, List.sum_replicate, smul_eq_mul]

theorem length_repeatChar (c : Char) (n : Nat) : (repeatChar c n).length = n := by
  simp [repeatChar, String.length]

theorem sum_map_charWidth_narrow (cs : List Char) :
    (∀ c ∈ cs, charWidth c = 1) → (cs.map charWidth).sum = cs.length := by
  induction cs with
  | nil => intro _; rfl
  | cons c cs ih =>
    intro h
    simp only [List.map_cons, List.sum_cons, List.length_cons, h c (by simp),
      ih (fun x hx => h x (by simp [hx]))]
    omega

theorem strWidth_narrow (s : String) (h : ∀ c ∈ s.data, charWidth c = 1) :
    strWidth s = s.length := by
  rw [strWidth, String.length]
  exact sum_map_charWidth_narrow s.data h

/-- Shared evaluation lemma for `drawBar`: explicit glyph string together
with the bounds on the filled-cell count, on the guarded domain. -/
theorem drawBar_spec (used total : ℚ) (width : Nat) (hu : 0 ≤ used) (ht : 0 < total) :
    drawBar used total width =
      repeatChar '█' ((⌊min used total * width / total⌋).toNat) ++
        repeatChar '░' (width - (⌊min used total * width / total⌋).toNat) ∧
    0 ≤ ⌊min used total * (width : ℚ) / total⌋ ∧
    (⌊min used total * (width : ℚ) / total⌋).toNat ≤ width := by
  have hkey : ratDiv (ratMul (min used total) (width : ℚ)) total =
      min used total * (width : ℚ) / total := by
    rw [ratMul_eq, ratDiv_eq]
  have h0 : (0 : ℚ) ≤ min used total * (width : ℚ) / total :=
    div_nonneg (mul_nonneg (le_min hu ht.le) (Nat.cast_nonneg width)) ht.le
  have hfl0 : 0 ≤ ⌊min used total * (width : ℚ) / total⌋ := Int.floor_nonneg.mpr h0
  have hle : min used total * (width : ℚ) / total ≤ (width : ℚ) := by
    rw [div_le_iff₀ ht]
    calc min used total * (width : ℚ) ≤ total * (width : ℚ) :=
          mul_le_mul_of_nonneg_right (min_le_right used total) (Nat.cast_nonneg width)
      _ = (width : ℚ) * total := mul_comm _ _
  have hflw : (⌊min used total * (width : ℚ) / total⌋).toNat ≤ width := by
    have h1 : ⌊min used total * (width : ℚ) / total⌋ ≤ (width : ℤ) := by
      have := Int.floor_le_floor hle
      rwa [Int.floor_natCast] at this
    omega
  refine ⟨?_, hfl0, hflw⟩
  simp only [drawBar, hkey]

/-- Claim C3: for non-negative `used`, positive `total` and any width,
`drawBar` emits exactly `width` content glyphs: the filled count equals
`floor(min(used,total) * width / total)` (a value already inside
`[0, width]`, hence equal to its clamp), the rest are empty glyphs, and
when `used ≥ total` the bar is completely filled. -/
theorem drawBar_glyph_counts (used total : ℚ) (width : Nat)
    (hu : 0 ≤ used) (ht : 0 < total) :
    (((drawBar used total width).data.count '█' : ℤ) =
        ⌊min used total * (width : ℚ) / total⌋) ∧
    (drawBar used total width).data.count '█' ≤ width ∧
    (drawBar used total width).data.count '░' =
      width - (drawBar used total width).data.count '█' ∧
    (drawBar used total width).length = width ∧
    (total ≤ used → (drawBar used total width).data.count '█' = width) := by
  obtain ⟨heq, hfl0, hflw⟩ := drawBar_spec used total width hu ht
  set f := (⌊min used total * (width : ℚ) / total⌋).toNat with hf
  have hdata : (drawBar used total width).data =
      List.replicate f '█' ++ List.replicate (width - f) '░' := by
    rw [heq]
    simp [repeatChar, String.data_append]
  have hcountF : (drawBar used total width).data.count '█' = f := by
    rw [hdata, List.count_append, List.count_replicate_self, List.count_replicate]
    simp
  have hcountE : (drawBar used total width).data.count '░' = width - f := by
    rw [hdata, List.count_append, List.count_replicate_self, List.count_replicate]
    simp
  refine ⟨?_, ?_, ?_, ?_, ?_⟩
  · rw [hcountF, hf]
    omega
  · rw [hcountF]
    exact hflw
  · rw [hcountE, hcountF]
  · rw [String.length, hdata]
    simp
    omega
  · intro hge
    rw [hcountF, hf]
    have hmin : min used total = total := min_eq_right hge
    rw [hmin, mul_div_cancel_left₀ _ (ne_of_gt ht), Int.floor_natCast]
    exact Int.toNat_natCast width

theorem drawBar_glyph_counts_witness :
    (0 : ℚ) ≤ 450 ∧ (0 : ℚ) < 300 ∧
    ((((drawBar 450 300 20).data.count '█' : ℤ) =
        ⌊min (450 : ℚ) 300 * (20 : ℚ) / 300⌋) ∧
     (drawBar 450 300 20).data.count '█' ≤ 20 ∧
     (drawBar 450 300 20).data.count '░' = 20 - (drawBar 450 300 20).data.count '█' ∧
     (drawBar 450 300 20).length = 20 ∧
     ((300 : ℚ) ≤ 450 → (drawBar 450 300 20).data.count '█' = 20)) :=
  ⟨by decide, by decide, drawBar_glyph_counts 450 300 20 (by decide) (by decide)⟩

theorem length_takeM (s : String) (n : Nat) : (takeM s n).length = min n s.length := by
  show (s.data.take n).length = min n s.data.length
  exact List.length_take n s.data

theorem strWidth_takeM_narrow (s : String) (n : Nat)
    (h : ∀ c ∈ s.data, charWidth c = 1) :
    strWidth (takeM s n) = min n s.length := by
  rw [strWidth_narrow (takeM s n) (fun c hc => h c (List.take_subset n s.data hc)),
    length_takeM]

set_option maxRecDepth 8000 in
/-- Claim C5 counterexample: a name of twelve wide CJK glyphs has display
width 24 > 22, but its code-unit length is 12, so the source (which tests
`model.length`) does not truncate it: the name cell keeps the whole name,
overflows the 22-cell column, and the full name appears verbatim in its
rendered row. -/
theorem model_name_truncation_counterexample :
    MODEL_NAME_WIDTH < strWidth "数数数数数数数数数数数数" ∧
    modelDisplayOf "数数数数数数数数数数数数" = "数数数数数数数数数数数数" ∧
    MODEL_NAME_WIDTH <
      strWidth (padEndM (modelDisplayOf "数数数数数数数数数数数数") MODEL_NAME_WIDTH) ∧
    ("数数数数数数数数数数数数").data <+:
      (modelLineText 300 20 ("数数数数数数数数数数数数", 50)).data :=
  ⟨by decide, by decide, by decide, by decide⟩

/-- Claim C5 (amended): for category names made of narrow (width-1) glyphs,
for which JS code units and display cells coincide, a name whose display
width exceeds the 22-cell name column is truncated to its first 21 cells
plus a single ellipsis glyph; the truncated cell occupies exactly 22 cells
(also after column padding) and the full name does not occur inside it;
names that fit the column are rendered untouched. -/
theorem model_name_truncation (name : String)
    (hnarrow : ∀ c ∈ name.data, charWidth c = 1) :
    (strWidth name ≤ MODEL_NAME_WIDTH → modelDisplayOf name = name) ∧
    (MODEL_NAME_WIDTH < strWidth name →
      modelDisplayOf name = takeM name (MODEL_NAME_WIDTH - 1) ++ "…" ∧
      strWidth (modelDisplayOf name) = MODEL_NAME_WIDTH ∧
      strWidth (padEndM (modelDisplayOf name) MODEL_NAME_WIDTH) = MODEL_NAME_WIDTH ∧
      ¬ name.data <:+: (modelDisplayOf name).data) := by
  have h22 : MODEL_NAME_WIDTH = 22 := rfl
  have hlen : strWidth name = name.length := strWidth_narrow name hnarrow
  constructor
  · intro hle
    rw [modelDisplayOf, if_neg (by omega)]
  · intro hgt
    have hlong : MODEL_NAME_WIDTH < name.length := by omega
    have hdef : modelDisplayOf name = takeM name (MODEL_NAME_WIDTH - 1) ++ "…" := by
      rw [modelDisplayOf, if_pos hlong]
    have htake : strWidth (takeM name (MODEL_NAME_WIDTH - 1)) = 21 := by
      rw [strWidth_takeM_narrow name _ hnarrow]
      omega
    have hwid : strWidth (modelDisplayOf name) = MODEL_NAME_WIDTH := by
      rw [hdef, strWidth_append, htake]
      decide
    have hlen2 : (modelDisplayOf name).length = MODEL_NAME_WIDTH := by
      rw [hdef, String.length, String.data_append, List.length_append]
      have : (takeM name (MODEL_NAME_WIDTH - 1)).length = min (MODEL_NAME_WIDTH - 1) name.length :=
        length_takeM name _
      rw [String.length] at this
      rw [this]
      have : ("…").data.length = 1 := rfl
      rw [this]
      omega
    refine ⟨hdef, hwid, ?_, ?_⟩
    · rw [padEndM, strWidth_append, strWidth_repeatChar]
      have : (modelDisplayOf name).length = MODEL_NAME_WIDTH := hlen2
      rw [this, hwid]
      decide
    · intro hinf
      have hle := hinf.length_le
      have e1 : name.data.length = name.length := rfl
      have e2 : (modelDisplayOf name).data.length = (modelDisplayOf name).length := rfl
      omega

theorem model_name_truncation_witness :
    (∀ c ∈ ("aaaaaaaaaaaaaaaaaaaaaaaaaaaaaaaaaaaaaaaaaa").data, charWidth c = 1) ∧
    MODEL_NAME_WIDTH < strWidth "aaaaaaaaaaaaaaaaaaaaaaaaaaaaaaaaaaaaaaaaaa" ∧
    (modelDisplayOf "aaaaaaaaaaaaaaaaaaaaaaaaaaaaaaaaaaaaaaaaaa" =
        takeM "aaaaaaaaaaaaaaaaaaaaaaaaaaaaaaaaaaaaaaaaaa" (MODEL_NAME_WIDTH - 1) ++ "…" ∧
      strWidth (modelDisplayOf "aaaaaaaaaaaaaaaaaaaaaaaaaaaaaaaaaaaaaaaaaa") = MODEL_NAME_WIDTH ∧
      strWidth (padEndM (modelDisplayOf "aaaaaaaaaaaaaaaaaaaaaaaaaaaaaaaaaaaaaaaaaa")
          MODEL_NAME_WIDTH) = MODEL_NAME_WIDTH ∧
      ¬ ("aaaaaaaaaaaaaaaaaaaaaaaaaaaaaaaaaaaaaaaaaa").data <:+:
          (modelDisplayOf "aaaaaaaaaaaaaaaaaaaaaaaaaaaaaaaaaaaaaaaaaa").data) :=
  ⟨by decide, by decide,
    (model_name_truncation "aaaaaaaaaaaaaaaaaaaaaaaaaaaaaaaaaaaaaaaaaa" (by decide)).2 (by decide)⟩

/-- Claim C6 counterexample: a reset exactly seven days away is strictly in
the future, not MORE than seven days away, and at least 24 hours away, so
the claim prescribes a day-form suffix; but the source's cutoff
`diffMs >= SEVEN_DAYS_MS` is inclusive and returns no suffix. -/
theorem countdown_seven_day_boundary :
    (0 : ℤ) < 604800000 - 0 ∧
    ¬ (SEVEN_DAYS_MS < 604800000 - 0) ∧
    (24 * 60 * 60 * 1000 : ℤ) ≤ 604800000 - 0 ∧
    formatTimeUntilReset 0 604800000 = none :=
  ⟨by decide, by decide, by decide, by decide⟩

/-- Claim C6 (amended): the countdown formatter yields no suffix exactly
when the reset is not strictly in the future or is at least (rather than
strictly more than) 7 days away; otherwise it yields `"in N day(s)"` at or
above 24 hours, `"in Hh"` at or above 12 hours, `"in Mmin"` under one hour
and `"in Hh Mmin"` in between; and the renderer's suffix slot is empty
whenever the terminal is narrower than 60 columns. -/
theorem countdown_format (nowMs resetMs : ℤ) (data : UsageData) (w : Nat) :
    (formatTimeUntilReset nowMs resetMs = none ↔
      resetMs - nowMs ≤ 0 ∨ SEVEN_DAYS_MS ≤ resetMs - nowMs) ∧
    (0 < resetMs - nowMs → resetMs - nowMs < SEVEN_DAYS_MS →
      ((24 * 60 * 60 * 1000 ≤ resetMs - nowMs →
        formatTimeUntilReset nowMs resetMs =
          some ("in " ++ toString ((resetMs - nowMs) / (24 * 60 * 60 * 1000)) ++
            (if (resetMs - nowMs) / (24 * 60 * 60 * 1000) = 1 then " day" else " days"))) ∧
       (12 * 60 * 60 * 1000 ≤ resetMs - nowMs → resetMs - nowMs < 24 * 60 * 60 * 1000 →
        formatTimeUntilReset nowMs resetMs =
          some ("in " ++ toString ((resetMs - nowMs) / (60 * 60 * 1000)) ++ "h")) ∧
       (resetMs - nowMs < 60 * 60 * 1000 →
        formatTimeUntilReset nowMs resetMs =
          some ("in " ++ toString ((resetMs - nowMs) / (60 * 1000) % 60) ++ "min")) ∧
       (60 * 60 * 1000 ≤ resetMs - nowMs → resetMs - nowMs < 12 * 60 * 60 * 1000 →
        formatTimeUntilReset nowMs resetMs =
          some ("in " ++ toString ((resetMs - nowMs) / (60 * 60 * 1000)) ++ "h " ++
            toString ((resetMs - nowMs) / (60 * 1000) % 60) ++ "min")))) ∧
    (w < 60 → timeUntilResetOpt data w = none) := by
  have h7 : SEVEN_DAYS_MS = 604800000 := rfl
  refine ⟨⟨?_, ?_⟩, ?_, ?_⟩
  · intro h
    by_contra hcon
    push_neg at hcon
    simp only [formatTimeUntilReset] at h
    rw [if_neg (by push_neg; exact hcon)] at h
    split_ifs at h
  · intro h
    simp only [formatTimeUntilReset]
    rw [if_pos h]
  · intro h0 h7d
    rw [h7] at h7d
    have hguard : ¬ (resetMs - nowMs ≤ 0 ∨ SEVEN_DAYS_MS ≤ resetMs - nowMs) := by
      push_neg
      rw [h7]
      omega
    refine ⟨?_, ?_, ?_, ?_⟩
    · intro h24
      simp only [formatTimeUntilReset]
      rw [if_neg hguard, if_pos (by omega)]
    · intro h12 h24
      simp only [formatTimeUntilReset]
      rw [if_neg hguard, if_neg (by omega), if_pos (by omega)]
    · intro h1
      simp only [formatTimeUntilReset]
      rw [if_neg hguard, if_neg (by omega), if_neg (by omega), if_pos (by omega)]
    · intro hge1 hlt12
      simp only [formatTimeUntilReset]
      rw [if_neg hguard, if_neg (by omega), if_neg (by omega), if_neg (by omega)]
  · intro hw
    rw [timeUntilResetOpt, if_neg (by omega)]

theorem countdown_format_witness :
    (0 : ℤ) < 43200000 - 0 ∧ 43200000 - 0 < SEVEN_DAYS_MS ∧
    (12 * 60 * 60 * 1000 : ℤ) ≤ 43200000 - 0 ∧ 43200000 - 0 < 24 * 60 * 60 * 1000 ∧
    formatTimeUntilReset 0 43200000 =
      some ("in " ++ toString (((43200000 : ℤ) - 0) / (60 * 60 * 1000)) ++ "h") ∧
    (59 < 60 ∧ timeUntilResetOpt sampleData 59 = none) :=
  ⟨by decide, by decide, by decide, by decide,
    ((countdown_format 0 43200000 sampleData 59).2.1 (by decide) (by decide)).2.1
      (by decide) (by decide),
    by decide, (countdown_format 0 43200000 sampleData 59).2.2 (by decide)⟩

theorem insertByCountDesc_perm (x : String × ℚ) (l : List (String × ℚ)) :
    List.Perm (insertByCountDesc x l) (x :: l) := by
  induction l with
  | nil => exact List.Perm.refl _
  | cons y ys ih =>
    simp only [insertByCountDesc]
    by_cases h : y.2 < x.2
    · rw [if_pos h]
    · rw [if_neg h]
      exact (ih.cons y).trans (List.Perm.swap x y ys)

theorem sortByCountDesc_perm_aux (l : List (String × ℚ)) :
    ∀ acc, List.Perm (l.foldl (fun acc x => insertByCountDesc x acc) acc) (l ++ acc) := by
  induction l with
  | nil => intro acc; simp
  | cons x xs ih =>
    intro acc
    rw [List.foldl_cons]
    refine (ih (insertByCountDesc x acc)).trans ?_
    refine (List.Perm.append_left xs (insertByCountDesc_perm x acc)).trans ?_
    exact List.perm_middle

theorem sortByCountDesc_perm (l : List (String × ℚ)) : List.Perm (sortByCountDesc l) l := by
  have h := sortByCountDesc_perm_aux l []
  simpa [sortByCountDesc] using h

theorem insertByCountDesc_pairwise (x : String × ℚ) (l : List (String × ℚ))
    (h : l.Pairwise (fun a b => b.2 ≤ a.2)) :
    (insertByCountDesc x l).Pairwise (fun a b => b.2 ≤ a.2) := by
  induction l with
  | nil => simp [insertByCountDesc]
  | cons y ys ih =>
    rw [List.pairwise_cons] at h
    obtain ⟨hy, hys⟩ := h
    simp only [insertByCountDesc]
    by_cases hc : y.2 < x.2
    · rw [if_pos hc]
      refine List.Pairwise.cons ?_ (List.Pairwise.cons hy hys)
      intro b hb
      rcases List.mem_cons.mp hb with rfl | hbys
      · exact le_of_lt hc
      · exact le_trans (hy b hbys) (le_of_lt hc)
    · rw [if_neg hc]
      refine List.Pairwise.cons ?_ (ih hys)
      intro b hb
      have hb' : b ∈ x :: ys := (insertByCountDesc_perm x ys).subset hb
      rcases List.mem_cons.mp hb' with rfl | hbys
      · exact not_lt.mp hc
      · exact hy b hbys

theorem sortByCountDesc_pairwise_aux (l : List (String × ℚ)) :
    ∀ acc, acc.Pairwise (fun a b => b.2 ≤ a.2) →
      (l.foldl (fun acc x => insertByCountDesc x acc) acc).Pairwise
        (fun a b => b.2 ≤ a.2) := by
  induction l with
  | nil => intro acc h; simpa using h
  | cons x xs ih =>
    intro acc h
    rw [List.foldl_cons]
    exact ih _ (insertByCountDesc_pairwise x acc h)

theorem sortByCountDesc_pairwise (l : List (String × ℚ)) :
    (sortByCountDesc l).Pairwise (fun a b => b.2 ≤ a.2) :=
  sortByCountDesc_pairwise_aux l [] List.Pairwise.nil

theorem pairwise_two_sublist {l : List (String × ℚ)} {x y : String × ℚ}
    (hp : l.Pairwise (fun a b => b.2 ≤ a.2)) (hx : x ∈ l) (hy : y ∈ l)
    (hlt : y.2 < x.2) : List.Sublist [x, y] l := by
  induction l with
  | nil => cases hx
  | cons z zs ih =>
    rw [List.pairwise_cons] at hp
    obtain ⟨hz, hp'⟩ := hp
    rcases List.mem_cons.mp hx with rfl | hxs
    · rcases List.mem_cons.mp hy with h1 | hys
      · rw [h1] at hlt
        exact absurd hlt (lt_irrefl _)
      · exact List.Sublist.cons₂ x (List.singleton_sublist.mpr hys)
    · rcases List.mem_cons.mp hy with rfl | hys
      · exact absurd (hz x hxs) (not_le.mpr hlt)
      · exact List.Sublist.cons z (ih hp' hxs hys)

theorem rowEntries_subset (modelCounts : List (String × ℚ)) (p : String × ℚ)
    (h : p ∈ rowEntries modelCounts) : p ∈ modelCounts := by
  rw [rowEntries] at h
  exact (sortByCountDesc_perm modelCounts).subset (List.mem_of_mem_filter h)

/-- Claim C7: if two categories both appear in the map with strictly
ordered non-zero usage, the rendered table places the row of the bigger
one strictly before the row of the smaller one (the two rows form a
two-element sublist of the table block), regardless of the insertion order
of the map. -/
theorem rows_sorted_descending (modelCounts : List (String × ℚ)) (limit : ℚ)
    (innerWidth smallBarWidth : Nat) (k1 k2 : String) (c1 c2 : ℚ)
    (h1 : (k1, c1) ∈ modelCounts) (h2 : (k2, c2) ∈ modelCounts)
    (hlt : c2 < c1) (hpos : 0 < c2) :
    List.Sublist
      [printBoxLeft (modelLineText limit smallBarWidth (k1, c1)) innerWidth,
       printBoxLeft (modelLineText limit smallBarWidth (k2, c2)) innerWidth]
      (modelBlockLines modelCounts limit innerWidth smallBarWidth) := by
  have husage : hasUsage modelCounts = true := by
    rw [hasUsage, List.any_eq_true]
    exact ⟨(k1, c1), h1, by simpa using lt_trans hpos hlt⟩
  rw [modelBlockLines, husage, if_neg (by decide : ¬ (true = false))]
  have hperm := sortByCountDesc_perm modelCounts
  have h2sub : List.Sublist [(k1, c1), (k2, c2)] (sortByCountDesc modelCounts) :=
    pairwise_two_sublist (sortByCountDesc_pairwise modelCounts)
      (hperm.mem_iff.mpr h1) (hperm.mem_iff.mpr h2) hlt
  have hfil := h2sub.filter (fun p => decide (p.2 ≠ 0))
  have hkeep : List.filter (fun p => decide (p.2 ≠ 0)) [(k1, c1), (k2, c2)] =
      [(k1, c1), (k2, c2)] := by
    simp [List.filter, ne_of_gt hpos, ne_of_gt (lt_trans hpos hlt)]
  rw [hkeep] at hfil
  rw [rowEntries]
  exact List.Sublist.map
    (fun p => printBoxLeft (modelLineText limit smallBarWidth p) innerWidth) hfil

theorem rows_sorted_descending_witness :
    (("a", (10 : ℚ)) ∈ [("a", (10 : ℚ)), ("b", 100)]) ∧
    (("b", (100 : ℚ)) ∈ [("a", (10 : ℚ)), ("b", 100)]) ∧
    (10 : ℚ) < 100 ∧ (0 : ℚ) < 10 ∧
    List.Sublist
      [printBoxLeft (modelLineText 300 20 ("b", 100)) 56,
       printBoxLeft (modelLineText 300 20 ("a", 10)) 56]
      (modelBlockLines [("a", (10 : ℚ)), ("b", 100)] 300 56 20) :=
  ⟨by decide, by decide, by decide, by decide,
    rows_sorted_descending [("a", 10), ("b", 100)] 300 56 20 "b" "a" 100 10
      (by decide) (by decide) (by decide) (by decide)⟩

theorem percent_mem_formatPercentage (pct : ℚ) : '%' ∈ (formatPercentage pct).data := by
  rw [formatPercentage]
  split_ifs
  · rw [String.data_append]
    exact List.mem_append_right _ (by decide)
  · rw [String.data_append]
    exact List.mem_append_right _ (by decide)

theorem percent_mem_row (limit : ℚ) (smallW innerW : Nat) (p : String × ℚ) :
    '%' ∈ (printBoxLeft (modelLineText limit smallW p) innerW).data := by
  have h1 : '%' ∈ (padStartM (formatPercentage (modelPctValue p.2 limit))
      MODEL_USAGE_PCT_WIDTH).data := by
    rw [padStartM, String.data_append]
    exact List.mem_append_right _ (percent_mem_formatPercentage _)
  have h2 : '%' ∈ (modelLineText limit smallW p).data := by
    simp only [modelLineText, String.data_append]
    exact List.mem_append_right _ h1
  rw [printBoxLeft, String.data_append, String.data_append, String.data_append]
  exact List.mem_append_left _ (List.mem_append_left _ (List.mem_append_right _ h2))

theorem percent_not_mem_placeholder (innerW : Nat) :
    '%' ∉ (printBoxLeft "No premium requests used yet." innerW).data := by
  rw [printBoxLeft]
  intro hmem
  rw [String.data_append, String.data_append, String.data_append] at hmem
  rcases List.mem_append.mp hmem with h | h
  · rcases List.mem_append.mp h with h' | h'
    · rcases List.mem_append.mp h' with h'' | h''
      · exact absurd h'' (by decide)
      · exact absurd h'' (by decide)
    · have := List.eq_of_mem_replicate h'
      exact absurd this (by decide)
  · exact absurd h (by decide)

/-- Claim C8: with the data model's non-negative usage values, no zero-usage
category survives into the table's row entries, and the block equals the
single placeholder line `"No premium requests used yet."` exactly when
every category's usage is zero (in particular when the map is empty). -/
theorem zero_rows_placeholder (modelCounts : List (String × ℚ)) (limit : ℚ)
    (innerWidth smallBarWidth : Nat) (hnn : ∀ p ∈ modelCounts, 0 ≤ p.2) :
    (∀ p ∈ rowEntries modelCounts, 0 < p.2) ∧
    (modelBlockLines modelCounts limit innerWidth smallBarWidth =
        [printBoxLeft "No premium requests used yet." innerWidth] ↔
      ∀ p ∈ modelCounts, p.2 = 0) := by
  constructor
  · intro p hp
    have hmem : p ∈ modelCounts := rowEntries_subset modelCounts p hp
    have hne : p.2 ≠ 0 := by
      rw [rowEntries] at hp
      have h := List.of_mem_filter hp
      simpa using h
    exact lt_of_le_of_ne (hnn p hmem) (Ne.symm hne)
  · constructor
    · intro hblock
      by_contra hcon
      push_neg at hcon
      obtain ⟨p, hp, hpne⟩ := hcon
      have hppos : 0 < p.2 := lt_of_le_of_ne (hnn p hp) (Ne.symm hpne)
      have husage : hasUsage modelCounts = true := by
        rw [hasUsage, List.any_eq_true]
        exact ⟨p, hp, by simpa using hppos⟩
      rw [modelBlockLines, husage, if_neg (by decide : ¬ (true = false))] at hblock
      have hmem : printBoxLeft "No premium requests used yet." innerWidth ∈
          (rowEntries modelCounts).map
            (fun q => printBoxLeft (modelLineText limit smallBarWidth q) innerWidth) := by
        rw [hblock]
        exact List.mem_singleton_self _
      obtain ⟨q, hq, hqeq⟩ := List.mem_map.mp hmem
      have hpct : '%' ∈ (printBoxLeft "No premium requests used yet." innerWidth).data := by
        rw [← hqeq]
        exact percent_mem_row limit smallBarWidth innerWidth q
      exact absurd hpct (percent_not_mem_placeholder innerWidth)
    · intro hz
      have husage : hasUsage modelCounts = false := by
        rw [hasUsage, List.any_eq_false]
        intro p hp
        simp [hz p hp]
      rw [modelBlockLines, husage, if_pos rfl]

theorem zero_rows_placeholder_witness :
    (∀ p ∈ [("idle-model", (0 : ℚ))], 0 ≤ p.2) ∧
    modelBlockLines [("idle-model", (0 : ℚ))] 300 56 20 =
      [printBoxLeft "No premium requests used yet." 56] :=
  ⟨by decide,
    (zero_rows_placeholder [("idle-model", 0)] 300 56 20 (by decide)).2.mpr (by decide)⟩

theorem mapGet_mapSet_self (m : List (String × ℚ)) (k : String) (v : ℚ) :
    mapGet (mapSet m k v) k = some v := by
  induction m with
  | nil => simp [mapSet, mapGet]
  | cons p rest ih =>
    obtain ⟨k0, v0⟩ := p
    simp only [mapSet]
    by_cases h : k0 = k
    · rw [if_pos h]
      simp [mapGet]
    · rw [if_neg h]
      simp only [mapGet]
      rw [if_neg h]
      exact ih

theorem mapGet_mapSet_ne (m : List (String × ℚ)) (k k' : String) (v : ℚ) (h : k ≠ k') :
    mapGet (mapSet m k v) k' = mapGet m k' := by
  induction m with
  | nil => simp [mapSet, mapGet, h]
  | cons p rest ih =>
    obtain ⟨k0, v0⟩ := p
    simp only [mapSet]
    by_cases h0 : k0 = k
    · rw [if_pos h0]
      simp only [mapGet]
      rw [if_neg h, if_neg (h0 ▸ h : ¬ k0 = k')]
    · rw [if_neg h0]
      simp only [mapGet]
      by_cases h1 : k0 = k'
      · rw [if_pos h1, if_pos h1]
      · rw [if_neg h1, if_neg h1]
        exact ih

theorem sumValues_mapSet (m : List (String × ℚ)) (k : String) (q : ℚ) :
    ((mapSet m k ((mapGet m k).getD 0 + q)).map Prod.snd).sum =
      (m.map Prod.snd).sum + q := by
  induction m with
  | nil => simp [mapSet, mapGet]
  | cons p rest ih =>
    obtain ⟨k0, v0⟩ := p
    by_cases h : k0 = k
    · simp only [mapGet, mapSet, if_pos h, List.map_cons, List.sum_cons, Option.getD_some]
      ring
    · simp only [mapGet, mapSet, if_neg h, List.map_cons, List.sum_cons]
      rw [ih]
      ring

theorem mapGet_aggregate_aux (items : List UsageItem) :
    ∀ (m : List (String × ℚ)) (k : String),
      (mapGet (items.foldl
          (fun m item => mapSet m (keyOf item)
            (ratAdd ((mapGet m (keyOf item)).getD 0) item.grossQuantity)) m) k).getD 0 =
        (mapGet m k).getD 0 +
          ((items.filter (fun item => keyOf item = k)).map UsageItem.grossQuantity).sum := by
  induction items with
  | nil =>
    intro m k
    simp
  | cons item rest ih =>
    intro m k
    rw [List.foldl_cons, ih]
    by_cases h : keyOf item = k
    · subst h
      rw [mapGet_mapSet_self, Option.getD_some, ratAdd_eq,
        List.filter_cons_of_pos (by simp), List.map_cons, List.sum_cons]
      ring
    · rw [mapGet_mapSet_ne m (keyOf item) k _ h,
        List.filter_cons_of_neg (by simpa using h)]

theorem mapGet_modelCountsOf (items : List UsageItem) (k : String) :
    (mapGet (modelCountsOf items) k).getD 0 =
      ((items.filter (fun item => keyOf item = k)).map UsageItem.grossQuantity).sum := by
  have h := mapGet_aggregate_aux items [] k
  simpa [modelCountsOf, mapGet] using h

theorem sumValues_aggregate_aux (items : List UsageItem) :
    ∀ m : List (String × ℚ),
      ((items.foldl
          (fun m item => mapSet m (keyOf item)
            (ratAdd ((mapGet m (keyOf item)).getD 0) item.grossQuantity)) m).map
        Prod.snd).sum =
      (m.map Prod.snd).sum + (items.map UsageItem.grossQuantity).sum := by
  induction items with
  | nil =>
    intro m
    simp
  | cons item rest ih =>
    intro m
    rw [List.foldl_cons, ih, ratAdd_eq, sumValues_mapSet, List.map_cons, List.sum_cons]
    ring

theorem foldl_ratAdd_sum (items : List UsageItem) :
    ∀ a : ℚ, items.foldl (fun sum item => ratAdd sum item.grossQuantity) a =
      a + (items.map UsageItem.grossQuantity).sum := by
  induction items with
  | nil =>
    intro a
    simp
  | cons item rest ih =>
    intro a
    rw [List.foldl_cons, ih, ratAdd_eq, List.map_cons, List.sum_cons]
    ring

/-- Claim C9: for every parsed usage payload with non-negative quantities
(the billing data model), the snapshot's `totalUsage` is non-negative and an
integer multiple of 1/100 (rounded to two decimals); it agrees with the sum
of the per-category counts up to the rounding tolerance 1/200; and the value
aggregated under any key is exactly the sum of the quantities of the items
whose key collapses to it — in particular every item without a model name is
accumulated under the sentinel `"Unknown"` key. -/
theorem usage_snapshot_invariants (items : List UsageItem)
    (hnn : ∀ item ∈ items, 0 ≤ item.grossQuantity) :
    0 ≤ totalUsageOf items ∧
    (∃ n : ℤ, totalUsageOf items = (n : ℚ) / 100) ∧
    |totalUsageOf items - ((modelCountsOf items).map Prod.snd).sum| ≤ 1 / 200 ∧
    (∀ k : String, (mapGet (modelCountsOf items) k).getD 0 =
      ((items.filter (fun item => keyOf item = k)).map UsageItem.grossQuantity).sum) ∧
    (mapGet (modelCountsOf items) "Unknown").getD 0 =
      ((items.filter (fun item =>
          item.model = none ∨ item.model = some "Unknown")).map
        UsageItem.grossQuantity).sum := by
  have hSnn : 0 ≤ (items.map UsageItem.grossQuantity).sum := by
    apply List.sum_nonneg
    intro x hx
    obtain ⟨item, hitem, rfl⟩ := List.mem_map.mp hx
    exact hnn item hitem
  have htotal : totalUsageOf items =
      (↑(jsRound ((items.map UsageItem.grossQuantity).sum * 100)) : ℚ) / 100 := by
    rw [totalUsageOf, foldl_ratAdd_sum items 0, zero_add, ratMul_eq, ratDiv_eq]
  have hround : jsRound ((items.map UsageItem.grossQuantity).sum * 100) =
      ⌊(items.map UsageItem.grossQuantity).sum * 100 + 1 / 2⌋ := jsRound_eq _
  refine ⟨?_, ⟨jsRound ((items.map UsageItem.grossQuantity).sum * 100), htotal⟩, ?_,
    mapGet_modelCountsOf items, ?_⟩
  · rw [htotal]
    apply div_nonneg _ (by norm_num)
    rw [hround]
    have hx : (0 : ℚ) ≤ (items.map UsageItem.grossQuantity).sum * 100 + 1 / 2 := by
      have := mul_nonneg hSnn (by norm_num : (0:ℚ) ≤ 100)
      linarith
    exact_mod_cast Int.floor_nonneg.mpr hx
  · have hcat : ((modelCountsOf items).map Prod.snd).sum =
        (items.map UsageItem.grossQuantity).sum := by
      have h := sumValues_aggregate_aux items []
      simpa [modelCountsOf] using h
    rw [htotal, hcat, hround]
    have h1 : (↑⌊(items.map UsageItem.grossQuantity).sum * 100 + 1 / 2⌋ : ℚ) ≤
        (items.map UsageItem.grossQuantity).sum * 100 + 1 / 2 := Int.floor_le _
    have h2 : (items.map UsageItem.grossQuantity).sum * 100 + 1 / 2 - 1 <
        (↑⌊(items.map UsageItem.grossQuantity).sum * 100 + 1 / 2⌋ : ℚ) :=
      Int.sub_one_lt_floor _
    rw [abs_le]
    constructor
    · have e : (↑⌊(items.map UsageItem.grossQuantity).sum * 100 + 1 / 2⌋ : ℚ) / 100 -
          (items.map UsageItem.grossQuantity).sum =
          ((↑⌊(items.map UsageItem.grossQuantity).sum * 100 + 1 / 2⌋ : ℚ) -
            (items.map UsageItem.grossQuantity).sum * 100) / 100 := by
        ring
      rw [e]
      linarith
    · have e : (↑⌊(items.map UsageItem.grossQuantity).sum * 100 + 1 / 2⌋ : ℚ) / 100 -
          (items.map UsageItem.grossQuantity).sum =
          ((↑⌊(items.map UsageItem.grossQuantity).sum * 100 + 1 / 2⌋ : ℚ) -
            (items.map UsageItem.grossQuantity).sum * 100) / 100 := by
        ring
      rw [e]
      linarith
  · rw [mapGet_modelCountsOf items "Unknown"]
    congr 2
    apply List.filter_congr
    intro item _
    rw [decide_eq_decide]
    rcases hmodel : item.model with _ | s
    · simp [keyOf, hmodel]
    · simp [keyOf, hmodel]

theorem usage_snapshot_invariants_witness :
    (∀ item ∈ [UsageItem.mk 7 none], 0 ≤ item.grossQuantity) ∧
    0 ≤ totalUsageOf [UsageItem.mk 7 none] ∧
    |totalUsageOf [UsageItem.mk 7 none] -
        ((modelCountsOf [UsageItem.mk 7 none]).map Prod.snd).sum| ≤ 1 / 200 ∧
    (mapGet (modelCountsOf [UsageItem.mk 7 none]) "Unknown").getD 0 =
      (([UsageItem.mk 7 none].filter (fun item =>
          item.model = none ∨ item.model = some "Unknown")).map
        UsageItem.grossQuantity).sum :=
  ⟨by decide, (usage_snapshot_invariants [UsageItem.mk 7 none] (by decide)).1,
   (usage_snapshot_invariants [UsageItem.mk 7 none] (by decide)).2.2.1,
   (usage_snapshot_invariants [UsageItem.mk 7 none] (by decide)).2.2.2.2⟩

/-- Claim C10: on every argument vector the option parser accepts without a
parse-level error, help takes precedence: if the help flag was seen the
result is the help action regardless of the recorded plan/limit values
(even invalid ones), help wins over version, the version action is produced
when version was seen and help was not, and the invalid-plan /
invalid-limit errors can only arise when neither help nor version was
requested. -/
theorem cli_help_precedence (argv : List String) (vals : ParsedValues)
    (h : parseArgsModel argv = .ok vals) :
    (vals.help = true → parseCliArgs argv = .ok (.helpAction helpText)) ∧
    (vals.help = false → vals.version = true →
      parseCliArgs argv = .ok (.versionAction VERSION)) ∧
    (∀ p, parseCliArgs argv = .error (.invalidPlan p) →
      vals.help = false ∧ vals.version = false) ∧
    (∀ v, parseCliArgs argv = .error (.invalidLimit v) →
      vals.help = false ∧ vals.version = false) := by
  refine ⟨?_, ?_, ?_, ?_⟩
  · intro hh
    rw [parseCliArgs, h]
    simp [hh]
  · intro hh hv
    rw [parseCliArgs, h]
    simp [hh, hv]
  · intro p hp
    cases hh : vals.help with
    | true =>
      rw [parseCliArgs, h] at hp
      simp [hh] at hp
    | false =>
      cases hv : vals.version with
      | true =>
        rw [parseCliArgs, h] at hp
        simp [hh, hv] at hp
      | false => exact ⟨rfl, rfl⟩
  · intro v hv'
    cases hh : vals.help with
    | true =>
      rw [parseCliArgs, h] at hv'
      simp [hh] at hv'
    | false =>
      cases hv : vals.version with
      | true =>
        rw [parseCliArgs, h] at hv'
        simp [hh, hv] at hv'
      | false => exact ⟨rfl, rfl⟩

theorem cli_help_precedence_witness :
    parseArgsModel ["bun", "main.ts", "--plan", "bogus", "--help", "-v"] =
      .ok ⟨some "bogus", none, true, true⟩ ∧
    (⟨some "bogus", none, true, true⟩ : ParsedValues).help = true ∧
    parseCliArgs ["bun", "main.ts", "--plan", "bogus", "--help", "-v"] =
      .ok (.helpAction helpText) :=
  ⟨by rfl, by rfl,
    (cli_help_precedence ["bun", "main.ts", "--plan", "bogus", "--help", "-v"]
      ⟨some "bogus", none, true, true⟩ (by rfl)).1 (by rfl)⟩

theorem strWidth_printBoxLeft (text : String) (n : Nat) (h : strWidth text ≤ n) :
    strWidth (printBoxLeft text n) = n + 4 := by
  rw [printBoxLeft, strWidth_append, strWidth_append, strWidth_append, strWidth_repeatChar]
  have h1 : strWidth "│ " = 2 := by decide
  have h2 : strWidth " │" = 2 := by decide
  have h3 : charWidth ' ' = 1 := by decide
  rw [h1, h2, h3]
  omega

theorem strWidth_printBoxLine (text : String) (n : Nat) (h : strWidth text ≤ n) :
    strWidth (printBoxLine text n) = n + 4 := by
  simp only [printBoxLine]
  rw [strWidth_append, strWidth_append, strWidth_append, strWidth_append,
    strWidth_repeatChar, strWidth_repeatChar]
  have h1 : strWidth "│ " = 2 := by decide
  have h2 : strWidth " │" = 2 := by decide
  have h3 : charWidth ' ' = 1 := by decide
  rw [h1, h2, h3]
  omega

theorem strWidth_printBoxLeftRight (l r : String) (n : Nat)
    (h : strWidth l + strWidth r + 1 ≤ n) :
    strWidth (printBoxLeftRight l r n) = n + 4 := by
  simp only [printBoxLeftRight]
  rw [strWidth_append, strWidth_append, strWidth_append, strWidth_append,
    strWidth_repeatChar]
  have h1 : strWidth "│ " = 2 := by decide
  have h2 : strWidth " │" = 2 := by decide
  have h3 : charWidth ' ' = 1 := by decide
  rw [h1, h2, h3]
  have hmax : max 1 (n - strWidth l - strWidth r) = n - strWidth l - strWidth r := by
    omega
  rw [hmax]
  omega

theorem strWidth_drawBoxTop (n : Nat) : strWidth (drawBoxTop n) = n + 4 := by
  rw [drawBoxTop, strWidth_append, strWidth_append, strWidth_repeatChar]
  have h1 : strWidth "╭─" = 2 := by decide
  have h2 : strWidth "─╮" = 2 := by decide
  have h3 : charWidth '─' = 1 := by decide
  rw [h1, h2, h3]
  omega

theorem strWidth_drawBoxSeparator (n : Nat) : strWidth (drawBoxSeparator n) = n + 4 := by
  rw [drawBoxSeparator, strWidth_append, strWidth_append, strWidth_repeatChar]
  have h1 : strWidth "├─" = 2 := by decide
  have h2 : strWidth "─┤" = 2 := by decide
  have h3 : charWidth '─' = 1 := by decide
  rw [h1, h2, h3]
  omega

theorem strWidth_drawBoxBottom (n : Nat) : strWidth (drawBoxBottom n) = n + 4 := by
  rw [drawBoxBottom, strWidth_append, strWidth_append, strWidth_repeatChar]
  have h1 : strWidth "╰─" = 2 := by decide
  have h2 : strWidth "─╯" = 2 := by decide
  have h3 : charWidth '─' = 1 := by decide
  rw [h1, h2, h3]
  omega

theorem strWidth_drawBar (used total : ℚ) (w : Nat) (hu : 0 ≤ used) (ht : 0 < total) :
    strWidth (drawBar used total w) = w := by
  obtain ⟨heq, hge0, hle⟩ := drawBar_spec used total w hu ht
  rw [heq, strWidth_append, strWidth_repeatChar, strWidth_repeatChar]
  have h1 : charWidth '█' = 1 := by decide
  have h2 : charWidth '░' = 1 := by decide
  rw [h1, h2]
  omega

theorem strWidth_drawMonthProgressBar (d D w : Nat) (hw : 1 ≤ w) :
    strWidth (drawMonthProgressBar d D w) = w := by
  simp only [drawMonthProgressBar]
  rw [strWidth_append, strWidth_append, strWidth_repeatChar, strWidth_repeatChar]
  have h1 : charWidth '⋅' = 1 := by decide
  have h2 : strWidth "|" = 1 := by decide
  rw [h1, h2]
  have h3 : min (d * w / D) (w - 1) ≤ w - 1 := min_le_right _ _
  omega

theorem strWidth_padEndM (s : String) (n : Nat) (hs : strWidth s = s.length)
    (h : s.length ≤ n) : strWidth (padEndM s n) = n := by
  rw [padEndM, strWidth_append, strWidth_repeatChar, hs]
  have h1 : charWidth ' ' = 1 := by decide
  rw [h1]
  omega

theorem modelDisplay_narrow (k : String) (hk : ∀ c ∈ k.data, charWidth c = 1) :
    strWidth (modelDisplayOf k) = (modelDisplayOf k).length ∧
    (modelDisplayOf k).length ≤ MODEL_NAME_WIDTH := by
  have h22 : MODEL_NAME_WIDTH = 22 := rfl
  by_cases h : MODEL_NAME_WIDTH < k.length
  · have hdef : modelDisplayOf k = takeM k (MODEL_NAME_WIDTH - 1) ++ "…" := by
      rw [modelDisplayOf, if_pos h]
    constructor
    · rw [hdef]
      apply strWidth_narrow
      intro c hc
      rw [String.data_append] at hc
      rcases List.mem_append.mp hc with hc' | hc'
      · exact hk c (List.take_subset _ _ hc')
      · have hce : c = '…' := by simpa using hc'
        rw [hce]
        decide
    · rw [hdef]
      have e : (takeM k (MODEL_NAME_WIDTH - 1) ++ "…").length =
          (takeM k (MODEL_NAME_WIDTH - 1)).length + 1 := by
        rw [String.length, String.data_append, List.length_append]
        rfl
      rw [e, length_takeM]
      omega
  · have hdef : modelDisplayOf k = k := by
      rw [modelDisplayOf, if_neg h]
    rw [hdef]
    exact ⟨strWidth_narrow k hk, not_lt.mp h⟩

theorem strWidth_nameCell (k : String) (hk : ∀ c ∈ k.data, charWidth c = 1) :
    strWidth (padEndM (modelDisplayOf k) MODEL_NAME_WIDTH) = MODEL_NAME_WIDTH := by
  obtain ⟨h1, h2⟩ := modelDisplay_narrow k hk
  exact strWidth_padEndM _ _ h1 h2

theorem strWidth_modelLineText (limit : ℚ) (smallW : Nat) (k : String) (c : ℚ)
    (hk : ∀ ch ∈ k.data, charWidth ch = 1)
    (hcount : strWidth (padStartM (toString (jsRound c)) MODEL_USAGE_COUNT_WIDTH) =
      MODEL_USAGE_COUNT_WIDTH)
    (hpct : strWidth (padStartM (formatPercentage (modelPctValue c limit))
      MODEL_USAGE_PCT_WIDTH) = MODEL_USAGE_PCT_WIDTH)
    (hc : 0 ≤ c) (hl : 0 < limit) :
    strWidth (modelLineText limit smallW (k, c)) = 36 + smallW := by
  simp only [modelLineText]
  rw [strWidth_append, strWidth_append, strWidth_append, strWidth_append, strWidth_append]
  rw [strWidth_nameCell k hk, hcount, hpct, strWidth_drawBar c limit smallW hc hl]
  have hsp : strWidth " " = 1 := by decide
  rw [hsp]
  have e1 : MODEL_NAME_WIDTH = 22 := rfl
  have e2 : MODEL_USAGE_COUNT_WIDTH = 5 := rfl
  have e3 : MODEL_USAGE_PCT_WIDTH = 7 := rfl
  omega

/-- Claim C2 (amended): for terminal widths 60, 80 and 100, every line of
the composed output except the final empty line (the element producing the
trailing newline) has display width exactly the requested terminal width,
with inner content width `terminalWidth - 4` — provided the variable texts
fit: the header, subtitle, overall and reset texts within the inner width,
the reset countdown together with its label within the inner width, every
category name made of narrow glyphs, every rounded count and percentage
string within its fixed column, with non-negative usage values, a positive
limit and a positive day count. -/
theorem render_line_widths (data : UsageData) (plan : String) (limit : ℚ) (width : Nat)
    (hw : width = 60 ∨ width = 80 ∨ width = 100)
    (htitle : strWidth (titleText plan) ≤ width - 4)
    (hsub : strWidth (subtitleText data) ≤ width - 4)
    (hover : strWidth (overallText data limit) ≤ width - 4)
    (hreset : strWidth (resetLabelText data) ≤ width - 4)
    (hresetR : ∀ t, timeUntilResetOpt data width = some t →
      strWidth (resetLabelText data) + strWidth t + 1 ≤ width - 4)
    (hrows : ∀ p ∈ data.modelCounts,
      (∀ ch ∈ p.1.data, charWidth ch = 1) ∧
      strWidth (padStartM (toString (jsRound p.2)) MODEL_USAGE_COUNT_WIDTH) =
        MODEL_USAGE_COUNT_WIDTH ∧
      strWidth (padStartM (formatPercentage (modelPctValue p.2 limit))
        MODEL_USAGE_PCT_WIDTH) = MODEL_USAGE_PCT_WIDTH ∧
      0 ≤ p.2)
    (htot : 0 ≤ data.totalUsage) (hlimit : 0 < limit)
    (hdays : 0 < data.daysInMonth) :
    ∀ line ∈ (renderDisplayLines data plan limit width).dropLast,
      strWidth line = width := by
  have hf : width - 4 + 4 = width ∧ 56 ≤ width - 4 ∧
      36 + (width - 4 - MODEL_NAME_WIDTH - MODEL_USAGE_COUNT_WIDTH -
        MODEL_USAGE_PCT_WIDTH - 2) = width - 4 ∧
      1 ≤ width - 4 - 10 ∧ 10 + (width - 4 - 10) = width - 4 := by
    rcases hw with h | h | h <;> subst h <;>
      exact ⟨by decide, by decide, by decide, by decide, by decide⟩
  obtain ⟨hf1, hf2, hf3, hf4, hf5⟩ := hf
  intro line hline
  simp only [renderDisplayLines] at hline
  rw [List.dropLast_concat] at hline
  rcases List.mem_append.mp hline with h14 | htail
  · rcases List.mem_append.mp h14 with hfront | hblock
    · simp only [List.mem_cons, List.not_mem_nil, or_false] at hfront
      rcases hfront with rfl | rfl | rfl | rfl | rfl | rfl | rfl | rfl | rfl | rfl |
        rfl | rfl | rfl | rfl
      · rw [strWidth_drawBoxTop]
        omega
      · rw [strWidth_printBoxLine "" _ (Nat.zero_le _)]
        omega
      · rw [strWidth_printBoxLine _ _ htitle]
        omega
      · rw [strWidth_printBoxLine _ _ hsub]
        omega
      · rw [strWidth_printBoxLine "" _ (Nat.zero_le _)]
        omega
      · rw [strWidth_drawBoxSeparator]
        omega
      · rw [strWidth_printBoxLeft _ _ hover]
        omega
      · have hbar : strWidth ("Usage:    " ++
            drawBar data.totalUsage limit (width - 4 - 10)) = width - 4 := by
          rw [strWidth_append, strWidth_drawBar _ _ _ htot hlimit]
          have h10 : strWidth "Usage:    " = 10 := by decide
          rw [h10]
          omega
        rw [strWidth_printBoxLeft _ _ (le_of_eq hbar)]
        omega
      · have hbar : strWidth ("Month:    " ++
            drawMonthProgressBar data.currentDay data.daysInMonth (width - 4 - 10)) =
            width - 4 := by
          rw [strWidth_append, strWidth_drawMonthProgressBar _ _ _ hf4]
          have h10 : strWidth "Month:    " = 10 := by decide
          rw [h10]
          omega
        rw [strWidth_printBoxLeft _ _ (le_of_eq hbar)]
        omega
      · rw [strWidth_printBoxLine "" _ (Nat.zero_le _)]
        omega
      · rcases hcase : timeUntilResetOpt data width with _ | t
        · simp only [resetLine, hcase]
          rw [strWidth_printBoxLeft _ _ hreset]
          omega
        · simp only [resetLine, hcase]
          rw [strWidth_printBoxLeftRight _ _ _ (hresetR t hcase)]
          omega
      · rw [strWidth_drawBoxSeparator]
        omega
      · have h16 : strWidth "Per-model usage:" = 16 := by decide
        rw [strWidth_printBoxLeft _ _ (by rw [h16]; omega)]
        omega
      · rw [strWidth_printBoxLine "" _ (Nat.zero_le _)]
        omega
    · rw [modelBlockLines] at hblock
      by_cases hu : hasUsage data.modelCounts = false
      · rw [if_pos hu] at hblock
        simp only [List.mem_cons, List.not_mem_nil, or_false] at hblock
        subst hblock
        have h29 : strWidth "No premium requests used yet." = 29 := by decide
        rw [strWidth_printBoxLeft _ _ (by rw [h29]; omega)]
        omega
      · rw [if_neg hu] at hblock
        obtain ⟨p, hp, rfl⟩ := List.mem_map.mp hblock
        obtain ⟨k, c⟩ := p
        obtain ⟨hk, hcount, hpct, hc⟩ :=
          hrows (k, c) (rowEntries_subset data.modelCounts (k, c) hp)
        have hrow := strWidth_modelLineText limit
          (width - 4 - MODEL_NAME_WIDTH - MODEL_USAGE_COUNT_WIDTH -
            MODEL_USAGE_PCT_WIDTH - 2) k c hk hcount hpct hc hlimit
        rw [strWidth_printBoxLeft _ _ (by rw [hrow]; omega)]
        omega
  · simp only [List.mem_cons, List.not_mem_nil, or_false] at htail
    rcases htail with rfl | rfl
    · rw [strWidth_printBoxLine "" _ (Nat.zero_le _)]
      omega
    · rw [strWidth_drawBoxBottom]
      omega

set_option maxRecDepth 100000 in
/-- Claim C2 counterexample: at width 60 the composed output contains the
final empty line (the element producing the trailing newline), whose
display width is 0, not 60; and with a model count of 100000 the rounded
count string overflows its 5-cell column and the output contains a line of
width 61. -/
theorem render_line_widths_counterexample :
    ("" ∈ renderDisplayLines sampleData "pro" 300 60 ∧ strWidth "" ≠ 60) ∧
    (∃ line ∈ renderDisplayLines overflowData "pro" 300 60, strWidth line = 61) :=
  ⟨⟨by decide, by decide⟩, by decide⟩

theorem render_line_widths_witness :
    drawBoxTop 76 ∈ (renderDisplayLines sampleData "pro" 300 80).dropLast ∧
    strWidth (drawBoxTop 76) = 80 :=
  ⟨by decide,
    render_line_widths sampleData "pro" 300 80 (by decide) (by decide) (by decide)
      (by decide) (by decide)
      (by
        intro t ht
        rw [show timeUntilResetOpt sampleData 80 = none from rfl] at ht
        exact Option.noConfusion ht)
      (by decide) (by decide) (by decide) (by decide)
      (drawBoxTop 76) (by decide)⟩
